import Mathlib

/-!
# Verification of `fastlane/frame_screenshots.py`

A shallow embedding of the screenshot-framing script.  Python strings are
modelled as Lean `String` / `List Char`; the string primitives the script
uses (`in`, `str.split`, `str.replace`, `str.lower`, `Path.stem`) are given
executable Lean counterparts with Python's semantics.  PIL calls are
abstracted: an image is its `(width, height)` pair, `draw.textbbox` is an
input parameter, and a possible exception from `frame_screenshot` is an
oracle `String → Option String` (`some e` = exception with message `e`).
-/

/-- `PADDING = 100` from the script's configuration block. -/
def PADDING : Int := 100

/-- `TITLE_PADDING = 80` from the script's configuration block. -/
def TITLE_PADDING : Int := 80

/-- `FONT_SIZE = 72` from the script's configuration block. -/
def FONT_SIZE : Int := 72

/-- `BACKGROUND_COLORS['light']`. -/
def BACKGROUND_COLORS_light : String := "#007AFF"

/-- `BACKGROUND_COLORS['dark']`. -/
def BACKGROUND_COLORS_dark : String := "#1C1C1E"

/-- The `en-US` table of `TITLES`. -/
def titles_enUS : List (String × String) :=
  [("01_NearbyTab", "Discover Nearby Devices"),
   ("02_NearbyTabGrid", "Grid View"),
   ("03_ConnectedTab", "Active Connections"),
   ("04_ConnectionView", "Connection Details"),
   ("05_ChatView", "Secure Chat"),
   ("06_VoiceCallView", "Voice Call"),
   ("07_LibraryTab", "Device Library"),
   ("08_Settings", "Settings"),
   ("09_QuickConnect", "Quick Connect"),
   ("10_FileTransfer", "File Transfer"),
   ("11_TransferHistory", "Transfer History"),
   ("12_UserProfile", "User Profile"),
   ("13_GroupDetail", "Group Details")]

/-- The `zh-Hant` table of `TITLES`. -/
def titles_zhHant : List (String × String) :=
  [("01_NearbyTab", "發現附近裝置"),
   ("02_NearbyTabGrid", "網格檢視"),
   ("03_ConnectedTab", "已連接裝置"),
   ("04_ConnectionView", "連接詳情"),
   ("05_ChatView", "安全聊天"),
   ("06_VoiceCallView", "語音通話"),
   ("07_LibraryTab", "裝置資料庫"),
   ("08_Settings", "設定"),
   ("09_QuickConnect", "快速連接"),
   ("10_FileTransfer", "檔案傳輸"),
   ("11_TransferHistory", "傳輸紀錄"),
   ("12_UserProfile", "使用者資料"),
   ("13_GroupDetail", "群組詳情")]

/-- The `zh-Hans` table of `TITLES`. -/
def titles_zhHans : List (String × String) :=
  [("01_NearbyTab", "发现附近设备"),
   ("02_NearbyTabGrid", "网格视图"),
   ("03_ConnectedTab", "已连接设备"),
   ("04_ConnectionView", "连接详情"),
   ("05_ChatView", "安全聊天"),
   ("06_VoiceCallView", "语音通话"),
   ("07_LibraryTab", "设备库"),
   ("08_Settings", "设置"),
   ("09_QuickConnect", "快速连接"),
   ("10_FileTransfer", "文件传输"),
   ("11_TransferHistory", "传输记录"),
   ("12_UserProfile", "用户资料"),
   ("13_GroupDetail", "群组详情")]

/-- The `ja` table of `TITLES`. -/
def titles_ja : List (String × String) :=
  [("01_NearbyTab", "近くのデバイスを発見"),
   ("02_NearbyTabGrid", "グリッド表示"),
   ("03_ConnectedTab", "アクティブな接続"),
   ("04_ConnectionView", "接続の詳細"),
   ("05_ChatView", "セキュアチャット"),
   ("06_VoiceCallView", "音声通話"),
   ("07_LibraryTab", "デバイスライブラリ"),
   ("08_Settings", "設定"),
   ("09_QuickConnect", "クイック接続"),
   ("10_FileTransfer", "ファイル転送"),
   ("11_TransferHistory", "転送履歴"),
   ("12_UserProfile", "ユーザープロフィール"),
   ("13_GroupDetail", "グループ詳細")]

/-- The `ko` table of `TITLES`. -/
def titles_ko : List (String × String) :=
  [("01_NearbyTab", "주변 기기 발견"),
   ("02_NearbyTabGrid", "그리드 보기"),
   ("03_ConnectedTab", "활성 연결"),
   ("04_ConnectionView", "연결 상세"),
   ("05_ChatView", "보안 채팅"),
   ("06_VoiceCallView", "음성 통화"),
   ("07_LibraryTab", "기기 라이브러리"),
   ("08_Settings", "설정"),
   ("09_QuickConnect", "빠른 연결"),
   ("10_FileTransfer", "파일 전송"),
   ("11_TransferHistory", "전송 기록"),
   ("12_UserProfile", "사용자 프로필"),
   ("13_GroupDetail", "그룹 상세")]

/-- The `TITLES` dictionary: locale code ↦ (screenshot key ↦ title). -/
def TITLES : List (String × List (String × String)) :=
  [("en-US", titles_enUS),
   ("zh-Hant", titles_zhHant),
   ("zh-Hans", titles_zhHans),
   ("ja", titles_ja),
   ("ko", titles_ko)]

/-! ## Python string primitives -/

/-- `startsWith p s` : does list `s` start with list `p`? -/
def startsWith : List Char → List Char → Bool
  | [], _ => true
  | _ :: _, [] => false
  | p :: ps, c :: cs => p = c && startsWith ps cs

/-- Python's `sub in s` for strings: contiguous-substring containment. -/
def containsSub (p : List Char) : List Char → Bool
  | [] => startsWith p []
  | c :: cs => startsWith p (c :: cs) || containsSub p cs

/-- `containsSub` on `String`s, modelling Python's `sub in s`. -/
def containsSubS (p s : String) : Bool := containsSub p.data s.data

/-- ASCII lowercasing of one character, as Python's `str.lower` acts on
ASCII (the filenames the script meets are ASCII). -/
def asciiLower (c : Char) : Char :=
  if 'A' ≤ c ∧ c ≤ 'Z' then Char.ofNat (c.toNat + 32) else c

/-- Python's `s.lower()` on an ASCII string. -/
def pyLower (s : String) : String := ⟨s.data.map asciiLower⟩

/-- Python's `str.replace(pat, '')` with left-to-right non-overlapping
scanning, fuelled to stay structural (fuel `≥ length` is always enough). -/
def removeAllFuel (p : List Char) : Nat → List Char → List Char
  | _, [] => []
  | 0, s => s
  | n + 1, c :: cs =>
    if startsWith p (c :: cs) then removeAllFuel p n (List.drop p.length (c :: cs))
    else c :: removeAllFuel p n cs

/-- `s.replace(p, '')` : delete every occurrence of `p`, scanning left to
right without overlap, exactly as Python's `str.replace`. -/
def removeAll (p s : List Char) : List Char := removeAllFuel p s.length s

/-- The pattern `'_Dark'` removed by `get_title_for_screenshot`. -/
def darkPat : List Char := ['_', 'D', 'a', 'r', 'k']

/-- Python's `s.split(c)` for a one-character separator: keeps empty
pieces, result is always nonempty. -/
def splitOnChar (c : Char) : List Char → List (List Char)
  | [] => [[]]
  | x :: xs =>
    match splitOnChar c xs with
    | [] => [[]]
    | h :: t => if x = c then [] :: h :: t else (x :: h) :: t

/-- `parts[-1]` on a (never actually empty) list of parts. -/
def lastD : List (List Char) → List Char
  | [] => []
  | [x] => x
  | _ :: y :: t => lastD (y :: t)

/-- The last path component, `Path(p).name` for a plain relative path. -/
def afterLastSlash (s : List Char) : List Char :=
  (s.reverse.takeWhile (fun c => c ≠ '/')).reverse

/-- `pathlib`'s stem of a file *name*: drop the suffix starting at the
last `'.'` provided that dot is neither the first nor the last character;
otherwise return the name unchanged. -/
def stemOfName (name : List Char) : List Char :=
  let ext := name.reverse.takeWhile (fun c => c ≠ '.')
  if 0 < ext.length ∧ ext.length < name.length - 1 then
    name.take (name.length - 1 - ext.length)
  else name

/-- `Path(filename).stem`. -/
def pyStem (path : List Char) : List Char := stemOfName (afterLastSlash path)

/-- `Path(filename).stem` on `String`s. -/
def pyStemS (s : String) : String := ⟨pyStem s.data⟩

/-! ## `hex_to_rgb` -/

/-- Value of one hexadecimal digit, `none` when the character is not a
hex digit (Python's `int(·, 16)` raises there). -/
def hexDigitVal (c : Char) : Option Nat :=
  if '0' ≤ c ∧ c ≤ '9' then some (c.toNat - 48)
  else if 'a' ≤ c ∧ c ≤ 'f' then some (c.toNat - 87)
  else if 'A' ≤ c ∧ c ≤ 'F' then some (c.toNat - 55)
  else none

/-- Python's `int(s, 16)` on a plain string of hex digits; `none` models
the `ValueError` on an empty or non-hex string. -/
def parseHexNat (s : List Char) : Option Nat :=
  match s with
  | [] => none
  | _ => s.foldlM (fun acc c => (hexDigitVal c).map (fun d => acc * 16 + d)) 0

/-- `hex_to_rgb`: strip leading `'#'`s, then parse the two-character
slices at offsets 0, 2 and 4 (`none` models a raised `ValueError`). -/
def hex_to_rgb (hex_color : String) : Option (Nat × Nat × Nat) :=
  let h := hex_color.data.dropWhile (fun c => c = '#')
  match parseHexNat ((h.drop 0).take 2), parseHexNat ((h.drop 2).take 2),
        parseHexNat ((h.drop 4).take 2) with
  | some r, some g, some b => some (r, g, b)
  | _, _, _ => none

/-! ## `get_title_for_screenshot` -/

/-- The key-extraction part of `get_title_for_screenshot`:
`base = Path(filename).stem`, `parts = base.split('-')`,
`key = parts[-1] if len(parts) >= 2 else base`,
`key = key.replace('_Dark', '')`. -/
def extract_key (filename : String) : String :=
  let base := pyStem filename.data
  let parts := splitOnChar '-' base
  let key0 := if 2 ≤ parts.length then lastD parts else base
  ⟨removeAll darkPat key0⟩

/-- `TITLES.get(language, TITLES['en-US'])`. -/
def lookupTitles (language : String) : List (String × String) :=
  (List.lookup language TITLES).getD ((List.lookup "en-US" TITLES).getD [])

/-- `get_title_for_screenshot(filename, language)`:
`lang_titles.get(key, '')` over the extracted key. -/
def get_title_for_screenshot (filename language : String) : String :=
  (List.lookup (extract_key filename) (lookupTitles language)).getD ""

/-! ## `frame_screenshot` -/

/-- Everything `frame_screenshot` computes, short of the actual pixels:
the input image is `(ss_width, ss_height)`, the PIL text bounding box is
the parameter `bbox = (x0, y0, x1, y1)`. -/
structure FrameLayout where
  is_dark : Bool
  bg_color : Option (Nat × Nat × Nat)
  title : String
  output_width : Int
  title_height : Int
  output_height : Int
  text_pos : Option (Int × Int)
  screenshot_pos : Int × Int

/-- Shallow embedding of `frame_screenshot(input_path, output_path,
language)` on an image of size `ss_width × ss_height` whose title's
`draw.textbbox((0, 0), title, font)` is `bbox`. -/
def frame_screenshot (input_path _output_path language : String)
    (ss_width ss_height : Int) (bbox : Int × Int × Int × Int) : FrameLayout :=
  let is_dark := containsSubS "_Dark" input_path
  let bg_color :=
    hex_to_rgb (if is_dark then BACKGROUND_COLORS_dark else BACKGROUND_COLORS_light)
  let title := get_title_for_screenshot input_path language
  let output_width := ss_width + PADDING * 2
  let title_height :=
    if title ≠ "" then TITLE_PADDING + FONT_SIZE + TITLE_PADDING else 0
  let output_height := ss_height + title_height + PADDING
  let text_pos :=
    if title ≠ "" then
      let text_width := bbox.2.2.1 - bbox.1
      some ((output_width - text_width).fdiv 2, TITLE_PADDING)
    else none
  { is_dark := is_dark
    bg_color := bg_color
    title := title
    output_width := output_width
    title_height := title_height
    output_height := output_height
    text_pos := text_pos
    screenshot_pos := (PADDING, title_height) }

/-! ## `process_screenshots` -/

/-- Observable state of the batch loop: the two counters, the files that
were handed to `frame_screenshot` (inside the `try`), and the lines
printed to standard output. -/
structure ProcState where
  processed : Nat
  skipped : Nat
  submitted : List String
  log : List String

/-- The body of the inner loop of `process_screenshots` for one globbed
PNG name.  `frame name = none` means `frame_screenshot` returned
normally; `frame name = some e` means it raised an exception rendered as
`e`. -/
def processFile (frame : String → Option String) (st : ProcState)
    (name : String) : ProcState :=
  if containsSubS "_framed" name then st
  else if containsSubS "background" (pyLower name) then st
  else
    match frame name with
    | none =>
        { st with processed := st.processed + 1
                  submitted := st.submitted ++ [name]
                  log := st.log ++ ["  ✓ " ++ name] }
    | some e =>
        { st with skipped := st.skipped + 1
                  submitted := st.submitted ++ [name]
                  log := st.log ++ ["  ✗ " ++ name ++ ": " ++ e] }

/-- The inner loop of `process_screenshots` over one language
directory's globbed PNG names. -/
def process_language (frame : String → Option String) (files : List String)
    (st : ProcState) : ProcState :=
  files.foldl (processFile frame) st

/-- `process_screenshots` over the language directories (name, globbed
PNG files); returns the final state and the `Done!` line. -/
def process_screenshots (frame : String → Option String)
    (dirs : List (String × List String)) : ProcState × String :=
  let st := dirs.foldl
    (fun st d =>
      process_language frame d.2
        { st with log := st.log ++ ["\nProcessing " ++ d.1 ++ "..."] })
    ⟨0, 0, [], []⟩
  (st, "\nDone! Processed: " ++ toString st.processed ++
       ", Skipped: " ++ toString st.skipped)

/-! ## Claims -/

/-- C1: for every input image, the output canvas width is the screenshot
width plus the fixed padding on both sides: `output_width = ss_width +
2 * PADDING` with `PADDING = 100`. -/
theorem c1_output_width (input_path output_path language : String)
    (ss_width ss_height : Int) (bbox : Int × Int × Int × Int) :
    PADDING = 100 ∧
    (frame_screenshot input_path output_path language ss_width ss_height
        bbox).output_width = ss_width + 2 * PADDING := by
  refine ⟨rfl, ?_⟩
  show ss_width + PADDING * 2 = ss_width + 2 * PADDING
  ring

/-- C5: the background colour is taken from the static theme mapping:
RGB (28, 28, 30) (hex `#1C1C1E`) exactly when `"_Dark"` occurs in the
input path, RGB (0, 122, 255) (hex `#007AFF`) otherwise. -/
theorem c5_background_color (input_path output_path language : String)
    (ss_width ss_height : Int) (bbox : Int × Int × Int × Int) :
    (frame_screenshot input_path output_path language ss_width ss_height
        bbox).bg_color =
      some (if containsSubS "_Dark" input_path then (28, 28, 30)
            else (0, 122, 255)) := by
  show hex_to_rgb (if containsSubS "_Dark" input_path then
        BACKGROUND_COLORS_dark else BACKGROUND_COLORS_light) = _
  cases h : containsSubS "_Dark" input_path <;> simp [h] <;> rfl

/-- The fixed set of 13 screenshot keys. -/
def screenshotKeys : List String :=
  ["01_NearbyTab", "02_NearbyTabGrid", "03_ConnectedTab", "04_ConnectionView",
   "05_ChatView", "06_VoiceCallView", "07_LibraryTab", "08_Settings",
   "09_QuickConnect", "10_FileTransfer", "11_TransferHistory",
   "12_UserProfile", "13_GroupDetail"]

/-- C6: `TITLES` holds exactly 5 languages, and every language's table
has exactly the 13 keys `01_NearbyTab` … `13_GroupDetail`, in that order,
each mapped to a non-empty title. -/
theorem c6_titles_shape :
    TITLES.length = 5 ∧
    TITLES.map Prod.fst = ["en-US", "zh-Hant", "zh-Hans", "ja", "ko"] ∧
    ∀ p ∈ TITLES, p.2.map Prod.fst = screenshotKeys ∧ ∀ q ∈ p.2, q.2 ≠ "" := by
  decide

/-- C8: with an empty looked-up title the title band has height 0, the
screenshot is pasted at `y = 0`, and the output height is the input
height plus `PADDING`; with a non-empty title the output height is the
input height plus `2 * TITLE_PADDING + FONT_SIZE + PADDING` and the
screenshot is pasted at `y = 2 * TITLE_PADDING + FONT_SIZE`. -/
theorem c8_title_band (input_path output_path language : String)
    (ss_width ss_height : Int) (bbox : Int × Int × Int × Int) :
    ((frame_screenshot input_path output_path language ss_width ss_height
        bbox).title = "" →
      (frame_screenshot input_path output_path language ss_width ss_height
        bbox).title_height = 0 ∧
      (frame_screenshot input_path output_path language ss_width ss_height
        bbox).screenshot_pos.2 = 0 ∧
      (frame_screenshot input_path output_path language ss_width ss_height
        bbox).output_height = ss_height + PADDING) ∧
    ((frame_screenshot input_path output_path language ss_width ss_height
        bbox).title ≠ "" →
      (frame_screenshot input_path output_path language ss_width ss_height
        bbox).output_height
        = ss_height + (2 * TITLE_PADDING + FONT_SIZE) + PADDING ∧
      (frame_screenshot input_path output_path language ss_width ss_height
        bbox).screenshot_pos.2 = 2 * TITLE_PADDING + FONT_SIZE) := by
  simp only [frame_screenshot]
  by_cases h : get_title_for_screenshot input_path language = "" <;>
    simp [h, TITLE_PADDING, FONT_SIZE]

/-- C7: when the title is non-empty, the text is drawn at
`x = (output_width - text_width) // 2` (Python floor division, with
`text_width = bbox[2] - bbox[0]`) and `y = TITLE_PADDING`. -/
theorem c7_text_centering (input_path output_path language : String)
    (ss_width ss_height : Int) (bbox : Int × Int × Int × Int)
    (h : (frame_screenshot input_path output_path language ss_width ss_height
        bbox).title ≠ "") :
    (frame_screenshot input_path output_path language ss_width ss_height
        bbox).text_pos =
      some (((frame_screenshot input_path output_path language ss_width
                ss_height bbox).output_width - (bbox.2.2.1 - bbox.1)).fdiv 2,
            TITLE_PADDING) := by
  have h' : get_title_for_screenshot input_path language ≠ "" := h
  simp only [frame_screenshot]
  simp [h']

/-- Witness for C7 at a concrete input: the `en-US` title of
`01_NearbyTab` is non-empty and the text position evaluates as claimed. -/
theorem c7_text_centering_witness :
    (frame_screenshot "iPhone-01_NearbyTab.png" "o.png" "en-US" 100 200
        (0, 0, 50, 60)).text_pos =
      some (((frame_screenshot "iPhone-01_NearbyTab.png" "o.png" "en-US" 100
                200 (0, 0, 50, 60)).output_width - (50 - 0)).fdiv 2,
            TITLE_PADDING) :=
  c7_text_centering "iPhone-01_NearbyTab.png" "o.png" "en-US" 100 200
    (0, 0, 50, 60) (by decide)

/-- C3: when the extracted key is absent from the selected language's
table, `get_title_for_screenshot` returns the empty string. -/
theorem c3_unknown_key_empty (filename language : String)
    (h : List.lookup (extract_key filename) (lookupTitles language) = none) :
    get_title_for_screenshot filename language = "" := by
  simp [get_title_for_screenshot, h]

/-- Witness for C3: `Zzz` is not a key of the `en-US` table, and the
returned title is `""`. -/
theorem c3_unknown_key_empty_witness :
    get_title_for_screenshot "iPhone-Zzz.png" "en-US" = "" :=
  c3_unknown_key_empty "iPhone-Zzz.png" "en-US" (by decide)

/-- C9: a language absent from `TITLES` falls back to the `en-US` table,
so it gets English titles. -/
theorem c9_unknown_language_falls_back (filename language : String)
    (h : List.lookup language TITLES = none) :
    get_title_for_screenshot filename language
      = get_title_for_screenshot filename "en-US" := by
  have hen : List.lookup "en-US" TITLES = some titles_enUS := by decide
  simp [get_title_for_screenshot, lookupTitles, h, hen]

/-- Witness for C9: `fr` is not in `TITLES` and receives the English
title of `01_NearbyTab`. -/
theorem c9_unknown_language_falls_back_witness :
    get_title_for_screenshot "iPhone-01_NearbyTab.png" "fr"
      = get_title_for_screenshot "iPhone-01_NearbyTab.png" "en-US" :=
  c9_unknown_language_falls_back "iPhone-01_NearbyTab.png" "fr" (by decide)

/-- Witness for C8 at concrete inputs: a file with an unknown key gets
an empty title (first branch), `01_NearbyTab` a non-empty one (second
branch). -/
theorem c8_title_band_witness :
    ((frame_screenshot "iPhone-Zzz.png" "o.png" "en-US" 100 200
        (0, 0, 0, 0)).title_height = 0 ∧
     (frame_screenshot "iPhone-Zzz.png" "o.png" "en-US" 100 200
        (0, 0, 0, 0)).screenshot_pos.2 = 0 ∧
     (frame_screenshot "iPhone-Zzz.png" "o.png" "en-US" 100 200
        (0, 0, 0, 0)).output_height = 200 + PADDING) ∧
    ((frame_screenshot "iPhone-01_NearbyTab.png" "o.png" "en-US" 100 200
        (0, 0, 0, 0)).output_height
        = 200 + (2 * TITLE_PADDING + FONT_SIZE) + PADDING ∧
     (frame_screenshot "iPhone-01_NearbyTab.png" "o.png" "en-US" 100 200
        (0, 0, 0, 0)).screenshot_pos.2 = 2 * TITLE_PADDING + FONT_SIZE) :=
  ⟨(c8_title_band "iPhone-Zzz.png" "o.png" "en-US" 100 200 (0, 0, 0, 0)).1
      (by decide),
   (c8_title_band "iPhone-01_NearbyTab.png" "o.png" "en-US" 100 200
      (0, 0, 0, 0)).2 (by decide)⟩

/-- Counterexample to C2 as stated: `Background.png` contains neither
the substring `"_framed"` nor the substring `"background"`, yet the loop
never submits it for framing — the code lowercases the name before the
`"background"` test. -/
theorem c2_skip_counterexample :
    (process_language (fun _ => none) ["Background.png"]
        ⟨0, 0, [], []⟩).submitted = [] ∧
    containsSubS "_framed" "Background.png" = false ∧
    containsSubS "background" "Background.png" = false := by
  decide

/-- C2 (amended): a globbed PNG name is submitted for framing exactly
when it contains neither `"_framed"` nor — after lowercasing —
`"background"`; equivalently the submitted files are the ones kept by
that filter, in order. -/
theorem c2_skip_filter (frame : String → Option String)
    (st : ProcState) (files : List String) :
    (process_language frame files st).submitted
      = st.submitted ++ files.filter
          (fun n => !(containsSubS "_framed" n
                      || containsSubS "background" (pyLower n))) := by
  induction files generalizing st with
  | nil => simp [process_language]
  | cons f fs ih =>
    show (process_language frame fs (processFile frame st f)).submitted = _
    rw [ih]
    by_cases h1 : containsSubS "_framed" f = true
    · simp [processFile, h1, List.filter_cons]
    · by_cases h2 : containsSubS "background" (pyLower f) = true
      · simp [processFile, h1, h2, List.filter_cons]
      · simp only [Bool.not_eq_true] at h1 h2
        cases hf : frame f <;>
          simp [processFile, h1, h2, hf, List.filter_cons]

/-- C4: a file on which `frame_screenshot` raises is caught: the `✗`
line with the file name and error is printed, `skipped` grows by one,
`processed` is unchanged, the loop goes on with the remaining files, and
the final line reports both counts. -/
theorem c4_exception_handling (frame : String → Option String)
    (st : ProcState) (f e : String) (gs : List String)
    (h1 : containsSubS "_framed" f = false)
    (h2 : containsSubS "background" (pyLower f) = false)
    (hfail : frame f = some e) :
    (processFile frame st f).skipped = st.skipped + 1 ∧
    (processFile frame st f).processed = st.processed ∧
    (processFile frame st f).log = st.log ++ ["  ✗ " ++ f ++ ": " ++ e] ∧
    process_language frame (f :: gs) st
      = process_language frame gs (processFile frame st f) ∧
    ∀ dirs, (process_screenshots frame dirs).2
      = "\nDone! Processed: "
        ++ toString (process_screenshots frame dirs).1.processed
        ++ ", Skipped: "
        ++ toString (process_screenshots frame dirs).1.skipped := by
  refine ⟨?_, ?_, ?_, rfl, fun dirs => rfl⟩ <;>
    simp [processFile, h1, h2, hfail]

/-- Witness for C4 at a concrete failing file. -/
theorem c4_exception_handling_witness :
    (processFile (fun _ => some "boom") ⟨3, 1, [], []⟩ "a-01.png").skipped
      = 1 + 1 ∧
    (processFile (fun _ => some "boom") ⟨3, 1, [], []⟩ "a-01.png").processed
      = 3 ∧
    (processFile (fun _ => some "boom") ⟨3, 1, [], []⟩ "a-01.png").log
      = [] ++ ["  ✗ " ++ "a-01.png" ++ ": " ++ "boom"] ∧
    process_language (fun _ => some "boom") ["a-01.png", "b.png"]
        ⟨3, 1, [], []⟩
      = process_language (fun _ => some "boom") ["b.png"]
          (processFile (fun _ => some "boom") ⟨3, 1, [], []⟩ "a-01.png") ∧
    ∀ dirs, (process_screenshots (fun _ => some "boom") dirs).2
      = "\nDone! Processed: "
        ++ toString (process_screenshots (fun _ => some "boom") dirs).1.processed
        ++ ", Skipped: "
        ++ toString (process_screenshots (fun _ => some "boom") dirs).1.skipped :=
  c4_exception_handling (fun _ => some "boom") ⟨3, 1, [], []⟩ "a-01.png"
    "boom" ["b.png"] (by decide) (by decide) rfl

/-! ## C10: dark variants receive the same title -/

/-- `startsWith` means: the scanned list factors as pattern ++ rest. -/
theorem startsWith_iff (p : List Char) :
    ∀ s, startsWith p s = true ↔ ∃ r, s = p ++ r := by
  induction p with
  | nil => intro s; simp [startsWith]
  | cons a ps ih =>
    intro s
    cases s with
    | nil => simp [startsWith]
    | cons b bs =>
      simp only [startsWith, Bool.and_eq_true, decide_eq_true_eq, ih,
        List.cons_append, List.cons.injEq]
      constructor
      · rintro ⟨h1, r, h2⟩; exact ⟨r, h1.symm, h2⟩
      · rintro ⟨r, h1, h2⟩; exact ⟨h1.symm, r, h2⟩

/-- A match extends to the right. -/
theorem startsWith_append_right {p s : List Char} (t : List Char)
    (h : startsWith p s = true) : startsWith p (s ++ t) = true := by
  rw [startsWith_iff] at h ⊢
  obtain ⟨r, rfl⟩ := h
  exact ⟨r ++ t, by simp⟩

/-- A match of `p` against `s ++ t` that fits inside `s` is a match
against `s`. -/
theorem startsWith_of_append {p s t : List Char}
    (h : startsWith p (s ++ t) = true) (hlen : p.length ≤ s.length) :
    startsWith p s = true := by
  rw [startsWith_iff] at h ⊢
  obtain ⟨r, hr⟩ := h
  have htake : List.take p.length (s ++ t) = List.take p.length s := by
    rw [List.take_append_eq_append_take, Nat.sub_eq_zero_of_le hlen]
    simp
  have hp : List.take p.length s = p := by
    rw [← htake, hr, List.take_left]
  refine ⟨List.drop p.length s, ?_⟩
  conv_lhs => rw [← List.take_append_drop p.length s]
  rw [hp]

/-- A match of `p` against `s ++ p` with `s` shorter than `p` forces `s`
to be a prefix-slice of `p`. -/
theorem startsWith_short {p s t : List Char}
    (h : startsWith p (s ++ t) = true) (hlen : s.length ≤ p.length) :
    s = List.take s.length p := by
  rw [startsWith_iff] at h
  obtain ⟨r, hr⟩ := h
  have h1 : List.take s.length (s ++ t) = s := by
    rw [List.take_append_eq_append_take, Nat.sub_self]
    simp
  have h2 : List.take s.length (p ++ r) = List.take s.length p := by
    rw [List.take_append_eq_append_take, Nat.sub_eq_zero_of_le hlen]
    simp
  rw [hr] at h1
  rw [h2] at h1
  exact h1.symm

/-- Unfolding `removeAllFuel` at a cons with positive fuel. -/
theorem removeAllFuel_cons (p : List Char) (n : Nat) (c : Char)
    (cs : List Char) :
    removeAllFuel p (n + 1) (c :: cs)
      = if startsWith p (c :: cs) = true then
          removeAllFuel p n (List.drop p.length (c :: cs))
        else c :: removeAllFuel p n cs := rfl

/-- `removeAllFuel` ignores the exact fuel once it covers the length. -/
theorem removeAllFuel_fuel (p : List Char) (hp : p ≠ []) :
    ∀ n m (s : List Char), s.length ≤ n → s.length ≤ m →
      removeAllFuel p n s = removeAllFuel p m s := by
  intro n
  induction n with
  | zero =>
    intro m s hn _
    have : s = [] := List.eq_nil_of_length_eq_zero (Nat.le_zero.mp hn)
    subst this
    cases m <;> rfl
  | succ n ih =>
    intro m s hn hm
    cases s with
    | nil => cases m <;> rfl
    | cons c cs =>
      cases m with
      | zero => simp at hm
      | succ m' =>
        have hplen : 1 ≤ p.length := by
          cases p with
          | nil => exact absurd rfl hp
          | cons _ _ => simp
        rw [removeAllFuel_cons, removeAllFuel_cons]
        simp only [List.length_cons] at hn hm
        by_cases h : startsWith p (c :: cs) = true
        · rw [if_pos h, if_pos h]
          apply ih
          · simp only [List.length_drop, List.length_cons]
            omega
          · simp only [List.length_drop, List.length_cons]
            omega
        · rw [if_neg h, if_neg h]
          rw [ih m' cs (by omega) (by omega)]

/-- Core of C10: deleting every `'_Dark'` from `s ++ '_Dark'` gives the
same result as deleting from `s` — `'_Dark'` cannot straddle the seam
because no proper prefix of it is one of its periods. -/
theorem removeAllFuel_append_dark :
    ∀ n (s : List Char), s.length ≤ n →
      removeAllFuel darkPat (s.length + 5) (s ++ darkPat)
        = removeAllFuel darkPat s.length s := by
  intro n
  induction n with
  | zero =>
    intro s hn
    have : s = [] := List.eq_nil_of_length_eq_zero (Nat.le_zero.mp hn)
    subst this
    rfl
  | succ n ih =>
    intro s hn
    rcases Nat.lt_or_ge s.length (n + 1) with hlt | hge
    · exact ih s (Nat.lt_succ_iff.mp hlt)
    have hslen : s.length = n + 1 := Nat.le_antisymm hn hge
    cases s with
    | nil => simp at hslen
    | cons c cs =>
      have hdark : darkPat ≠ [] := by decide
      have hdlen : darkPat.length = 5 := rfl
      by_cases hpre : startsWith darkPat ((c :: cs) ++ darkPat) = true
      · by_cases hlen5 : 5 ≤ (c :: cs).length
        · -- the seam-free case: the match sits wholly inside `s`
          have hsw : startsWith darkPat (c :: cs) = true :=
            startsWith_of_append hpre (by rw [hdlen]; exact hlen5)
          have hdrop : List.drop 5 ((c :: cs) ++ darkPat)
              = List.drop 5 (c :: cs) ++ darkPat := by
            rw [List.drop_append_eq_append_drop, Nat.sub_eq_zero_of_le hlen5]
            rfl
          have hstep : removeAllFuel darkPat ((c :: cs).length + 5)
              ((c :: cs) ++ darkPat)
              = removeAllFuel darkPat ((c :: cs).length + 4)
                  (List.drop 5 (c :: cs) ++ darkPat) := by
            rw [List.cons_append]
            rw [show (c :: cs).length + 5 = ((c :: cs).length + 4) + 1 by omega]
            rw [removeAllFuel_cons, if_pos (by rw [← List.cons_append]; exact hpre)]
            rw [hdlen, ← List.cons_append, hdrop]
          set s' := List.drop 5 (c :: cs) with hs'
          have hs'len : s'.length = (c :: cs).length - 5 := by
            rw [hs', List.length_drop]
          have h1 : removeAllFuel darkPat ((c :: cs).length + 4) (s' ++ darkPat)
              = removeAllFuel darkPat (s'.length + 5) (s' ++ darkPat) := by
            apply removeAllFuel_fuel darkPat hdark <;>
              simp only [List.length_append, hdlen, hs'len] <;> omega
          have h2 : removeAllFuel darkPat (s'.length + 5) (s' ++ darkPat)
              = removeAllFuel darkPat s'.length s' := by
            apply ih
            simp only [hs'len, List.length_cons] at *
            omega
          have h3 : removeAllFuel darkPat (c :: cs).length (c :: cs)
              = removeAllFuel darkPat cs.length s' := by
            rw [List.length_cons, removeAllFuel_cons, if_pos hsw, hdlen]
          have h4 : removeAllFuel darkPat cs.length s'
              = removeAllFuel darkPat s'.length s' := by
            apply removeAllFuel_fuel darkPat hdark <;>
              simp only [hs'len, List.length_cons] <;> omega
          rw [hstep, h1, h2, h3, h4]
        · -- a straddling match: impossible for `'_Dark'`, by cases on `|s|`
          have hshort : (c :: cs) = List.take (c :: cs).length darkPat :=
            startsWith_short hpre (by rw [hdlen]; omega)
          have hlen14 : (c :: cs).length = 1 ∨ (c :: cs).length = 2 ∨
              (c :: cs).length = 3 ∨ (c :: cs).length = 4 := by
            simp only [List.length_cons] at hlen5 ⊢
            omega
          rcases hlen14 with h | h | h | h <;>
            rw [h] at hshort <;> rw [hshort] <;> decide
      · -- no match at the head: drop one character and recurse
        have hsw2 : ¬ startsWith darkPat (c :: cs) = true := fun h =>
          hpre (startsWith_append_right darkPat h)
        have hstep : removeAllFuel darkPat ((c :: cs).length + 5)
            ((c :: cs) ++ darkPat)
            = c :: removeAllFuel darkPat ((c :: cs).length + 4)
                (cs ++ darkPat) := by
          rw [List.cons_append]
          rw [show (c :: cs).length + 5 = ((c :: cs).length + 4) + 1 by omega]
          rw [removeAllFuel_cons, if_neg (by rw [← List.cons_append]; exact hpre)]
        have h1 : removeAllFuel darkPat ((c :: cs).length + 4) (cs ++ darkPat)
            = removeAllFuel darkPat (cs.length + 5) (cs ++ darkPat) := by
          rw [show (c :: cs).length + 4 = cs.length + 5 by
            simp only [List.length_cons]]
        have h2 : removeAllFuel darkPat (cs.length + 5) (cs ++ darkPat)
            = removeAllFuel darkPat cs.length cs := by
          apply ih
          simp only [List.length_cons] at hslen
          omega
        have h3 : removeAllFuel darkPat (c :: cs).length (c :: cs)
            = c :: removeAllFuel darkPat cs.length cs := by
          rw [List.length_cons, removeAllFuel_cons, if_neg hsw2]
        rw [hstep, h1, h2, h3]

/-- `s.replace('_Dark', '')` ignores a trailing `'_Dark'` already. -/
theorem removeAll_append_dark (s : List Char) :
    removeAll darkPat (s ++ darkPat) = removeAll darkPat s := by
  have h := removeAllFuel_append_dark s.length s le_rfl
  show removeAllFuel darkPat (s ++ darkPat).length (s ++ darkPat)
      = removeAllFuel darkPat s.length s
  rw [List.length_append, show darkPat.length = 5 from rfl]
  exact h

/-- `splitOnChar` always yields at least one piece. -/
theorem splitOnChar_ne_nil (c : Char) (l : List Char) :
    splitOnChar c l ≠ [] := by
  cases l with
  | nil => simp [splitOnChar]
  | cons x xs =>
    simp only [splitOnChar]
    cases splitOnChar c xs with
    | nil => simp
    | cons h tl => by_cases hx : x = c <;> simp [hx]

/-- Unfolding `splitOnChar` at a cons, given the tail's split. -/
theorem splitOnChar_cons_eq {c : Char} {xs : List Char} {h : List Char}
    {tl : List (List Char)} (x : Char) (hsp : splitOnChar c xs = h :: tl) :
    splitOnChar c (x :: xs)
      = if x = c then [] :: h :: tl else (x :: h) :: tl := by
  simp only [splitOnChar, hsp]

/-- A separator-free string splits into itself alone. -/
theorem splitOnChar_no_sep {c : Char} :
    ∀ {t : List Char}, (∀ ch ∈ t, ch ≠ c) → splitOnChar c t = [t] := by
  intro t
  induction t with
  | nil => intro _; rfl
  | cons x xs ih =>
    intro h
    rw [splitOnChar_cons_eq x (ih (fun ch hch => h ch (List.mem_cons_of_mem x hch)))]
    rw [if_neg (h x (List.mem_cons_self x xs))]

/-- Appending a separator-free tail does not change the number of
pieces. -/
theorem splitOnChar_length_append {c : Char} {t : List Char}
    (ht : ∀ ch ∈ t, ch ≠ c) :
    ∀ l : List Char,
      (splitOnChar c (l ++ t)).length = (splitOnChar c l).length := by
  intro l
  induction l with
  | nil => simp [splitOnChar_no_sep ht, splitOnChar]
  | cons x xs ih =>
    obtain ⟨h, tl, hsp⟩ := List.exists_cons_of_ne_nil (splitOnChar_ne_nil c xs)
    obtain ⟨h2, tl2, hsp2⟩ :=
      List.exists_cons_of_ne_nil (splitOnChar_ne_nil c (xs ++ t))
    rw [List.cons_append, splitOnChar_cons_eq x hsp2, splitOnChar_cons_eq x hsp]
    have hlen : (h2 :: tl2).length = (h :: tl).length := by
      rw [← hsp, ← hsp2]; exact ih
    by_cases hx : x = c <;> simp only [if_pos, if_neg, hx, if_true, if_false,
      List.length_cons] <;> simp_all

/-- Appending a separator-free tail appends it to the last piece. -/
theorem splitOnChar_lastD_append {c : Char} {t : List Char}
    (ht : ∀ ch ∈ t, ch ≠ c) :
    ∀ l : List Char,
      lastD (splitOnChar c (l ++ t)) = lastD (splitOnChar c l) ++ t := by
  intro l
  induction l with
  | nil => simp [splitOnChar_no_sep ht, splitOnChar, lastD]
  | cons x xs ih =>
    obtain ⟨h, tl, hsp⟩ := List.exists_cons_of_ne_nil (splitOnChar_ne_nil c xs)
    obtain ⟨h2, tl2, hsp2⟩ :=
      List.exists_cons_of_ne_nil (splitOnChar_ne_nil c (xs ++ t))
    have hlen : tl2.length = tl.length := by
      have := splitOnChar_length_append ht xs
      rw [hsp, hsp2] at this
      simpa using this
    rw [hsp, hsp2] at ih
    rw [List.cons_append, splitOnChar_cons_eq x hsp2, splitOnChar_cons_eq x hsp]
    by_cases hx : x = c
    · rw [if_pos hx, if_pos hx]
      show lastD (h2 :: tl2) = lastD (h :: tl) ++ t
      exact ih
    · rw [if_neg hx, if_neg hx]
      cases tl with
      | nil =>
        have htl2 : tl2 = [] := List.eq_nil_of_length_eq_zero (by simp [hlen])
        subst htl2
        show x :: h2 = (x :: h) ++ t
        have : h2 = h ++ t := ih
        simp [this]
      | cons y ys =>
        obtain ⟨y2, ys2, hy2⟩ : ∃ y2 ys2, tl2 = y2 :: ys2 := by
          cases tl2 with
          | nil => simp at hlen
          | cons a b => exact ⟨a, b, rfl⟩
        subst hy2
        show lastD (y2 :: ys2) = lastD (y :: ys) ++ t
        exact ih

/-- A string containing the separator splits into at least two pieces. -/
theorem two_le_splitOnChar_length {c : Char} :
    ∀ {l : List Char}, c ∈ l → 2 ≤ (splitOnChar c l).length := by
  intro l
  induction l with
  | nil => intro h; simp at h
  | cons x xs ih =>
    intro hmem
    obtain ⟨h, tl, hsp⟩ := List.exists_cons_of_ne_nil (splitOnChar_ne_nil c xs)
    rw [splitOnChar_cons_eq x hsp]
    by_cases hx : x = c
    · simp [hx]
    · rw [if_neg hx]
      rcases List.mem_cons.mp hmem with hxc | hxs
      · exact absurd hxc.symm hx
      · have := ih hxs
        rw [hsp] at this
        simpa using this

/-- `takeWhile` keeps a list all of whose elements pass the test. -/
theorem takeWhile_eq_self_of {p : Char → Bool} :
    ∀ {l : List Char}, (∀ x ∈ l, p x = true) → l.takeWhile p = l := by
  intro l
  induction l with
  | nil => intro _; rfl
  | cons a tl ih =>
    intro h
    rw [List.takeWhile_cons, if_pos (h a (List.mem_cons_self a tl)),
      ih (fun x hx => h x (List.mem_cons_of_mem a hx))]

/-- A slash-free path is its own last component. -/
theorem afterLastSlash_no_slash {l : List Char}
    (h : ∀ x ∈ l, x ≠ '/') : afterLastSlash l = l := by
  show (l.reverse.takeWhile _).reverse = l
  rw [takeWhile_eq_self_of, List.reverse_reverse]
  intro x hx
  simpa using h x (List.mem_reverse.mp hx)

/-- The stem of `y ++ ".png"` is `y`, for non-empty `y`. -/
theorem stemOfName_append_png {y : List Char} (hy : y ≠ []) :
    stemOfName (y ++ ['.', 'p', 'n', 'g']) = y := by
  have hrev : (y ++ ['.', 'p', 'n', 'g']).reverse
      = 'g' :: 'n' :: 'p' :: '.' :: y.reverse := by simp
  have hext : (y ++ ['.', 'p', 'n', 'g']).reverse.takeWhile
      (fun c => c ≠ '.') = ['g', 'n', 'p'] := by
    rw [hrev]; rfl
  have hy0 : 0 < y.length := List.length_pos.mpr hy
  simp only [stemOfName, hext, List.length_append]
  rw [if_pos ⟨by decide, by simpa using hy0⟩]
  rw [show y.length + ['.', 'p', 'n', 'g'].length - 1 - ['g', 'n', 'p'].length
      = y.length by simp]
  exact List.take_left y ['.', 'p', 'n', 'g']

/-- `Path(·).stem` of a slash-free `y ++ ".png"` is `y`. -/
theorem pyStem_structured {y : List Char} (hy : y ≠ [])
    (hslash : ∀ x ∈ y, x ≠ '/') :
    pyStem (y ++ ['.', 'p', 'n', 'g']) = y := by
  show stemOfName (afterLastSlash (y ++ ['.', 'p', 'n', 'g'])) = y
  rw [afterLastSlash_no_slash, stemOfName_append_png hy]
  intro x hx
  rcases List.mem_append.mp hx with h | h
  · exact hslash x h
  · simp at h
    rcases h with rfl | rfl | rfl | rfl <;> decide

/-- `extract_key` on a filename `device ++ "-" ++ key-part ++ t ++ ".png"`
(with slash-free device and key-part and a slash- and dash-free `t`):
the extracted key is the last dash-piece with `t` appended, then all
`'_Dark'` occurrences removed. -/
theorem extract_key_data (d k : String) (t : List Char)
    (hd : ∀ c ∈ d.data, c ≠ '/') (hk : ∀ c ∈ k.data, c ≠ '/')
    (hts : ∀ c ∈ t, c ≠ '/') (htd : ∀ c ∈ t, c ≠ '-')
    (f : String)
    (hf : f.data = (d.data ++ '-' :: k.data) ++ t ++ ['.', 'p', 'n', 'g']) :
    extract_key f
      = ⟨removeAll darkPat
          (lastD (splitOnChar '-' (d.data ++ '-' :: k.data)) ++ t)⟩ := by
  have hyne : (d.data ++ '-' :: k.data) ++ t ≠ [] := by simp
  have hyslash : ∀ x ∈ (d.data ++ '-' :: k.data) ++ t, x ≠ '/' := by
    intro x hx
    rcases List.mem_append.mp hx with h | h
    · rcases List.mem_append.mp h with h' | h'
      · exact hd x h'
      · rcases List.mem_cons.mp h' with rfl | h''
        · decide
        · exact hk x h''
    · exact hts x h
  have hdash : '-' ∈ d.data ++ '-' :: k.data := by simp
  have hstem : pyStem f.data = (d.data ++ '-' :: k.data) ++ t := by
    rw [hf]
    exact pyStem_structured hyne hyslash
  have hlen : 2 ≤ (splitOnChar '-' ((d.data ++ '-' :: k.data) ++ t)).length := by
    rw [splitOnChar_length_append htd]
    exact two_le_splitOnChar_length hdash
  simp only [extract_key]
  rw [hstem, if_pos hlen, splitOnChar_lastD_append htd]

/-- C10: a filename whose key part carries a `_Dark` suffix gets the same
title as its light counterpart, for every language. -/
theorem c10_dark_variant_same_title (d k language : String)
    (hd : ∀ c ∈ d.data, c ≠ '/') (hk : ∀ c ∈ k.data, c ≠ '/') :
    get_title_for_screenshot (d ++ "-" ++ k ++ "_Dark" ++ ".png") language
      = get_title_for_screenshot (d ++ "-" ++ k ++ ".png") language := by
  have hdashS : ("-" : String).data = ['-'] := rfl
  have hdarkS : ("_Dark" : String).data = darkPat := rfl
  have hpngS : (".png" : String).data = ['.', 'p', 'n', 'g'] := rfl
  have h1 : (d ++ "-" ++ k ++ "_Dark" ++ ".png").data
      = (d.data ++ '-' :: k.data) ++ darkPat ++ ['.', 'p', 'n', 'g'] := by
    simp [String.data_append, hdashS, hdarkS, hpngS, darkPat]
  have h2 : (d ++ "-" ++ k ++ ".png").data
      = (d.data ++ '-' :: k.data) ++ [] ++ ['.', 'p', 'n', 'g'] := by
    simp [String.data_append, hdashS, hpngS]
  have e1 := extract_key_data d k darkPat hd hk (by decide) (by decide) _ h1
  have e2 := extract_key_data d k [] hd hk (by simp) (by simp) _ h2
  have ekey : extract_key (d ++ "-" ++ k ++ "_Dark" ++ ".png")
      = extract_key (d ++ "-" ++ k ++ ".png") := by
    rw [e1, e2, List.append_nil, removeAll_append_dark]
  simp only [get_title_for_screenshot, ekey]

/-- Witness for C10 at a concrete device, key and language. -/
theorem c10_dark_variant_same_title_witness :
    get_title_for_screenshot
        ("iPhone 17 Pro Max" ++ "-" ++ "01_NearbyTab" ++ "_Dark" ++ ".png") "ja"
      = get_title_for_screenshot
          ("iPhone 17 Pro Max" ++ "-" ++ "01_NearbyTab" ++ ".png") "ja" :=
  c10_dark_variant_same_title "iPhone 17 Pro Max" "01_NearbyTab" "ja"
    (by decide) (by decide)
